import Mathlib

/-!
Verification of the goagain in-memory card retrieval engine.

The definitions below are a shallow embedding of the Go source:
  - internal/domain/types.go  (Card, Printing, Legality, GetLegality, GetClass, HasType)
  - internal/data/store.go    (Store, index construction in loadCards, CardFilter,
                               SearchCards, matchesFilter, GetCardsInSet)

Go strings are modelled as Lean Strings.  Go's strings.ToLower / ToUpper /
Contains / EqualFold operate on bytes; all data relevant here is ASCII, so we
model them at the ASCII level (case mapping only touches A-Z / a-z).
Go map lookups (m[k], nil when absent) are modelled with association lists and
an Option-returning lookup; the unspecified iteration order of a Go map
(`for kw, cards := range s.CardsByKeyword`) is modelled by passing the
iteration order explicitly as a parameter.
-/

namespace Goagain

/-- ASCII lower-casing of one code point, as Go's strings.ToLower does for ASCII. -/
def lowerCode (n : Nat) : Nat := if 65 ≤ n ∧ n ≤ 90 then n + 32 else n

/-- The lower-cased code points of a string: model of strings.ToLower at ASCII level. -/
def lowerCodes (s : String) : List Nat := s.data.map (fun c => lowerCode c.toNat)

/-- sub is a prefix of l (executable). -/
def prefixOfList : List Nat → List Nat → Bool
  | [], _ => true
  | _ :: _, [] => false
  | a :: as, b :: bs => a == b && prefixOfList as bs

/-- sub occurs contiguously in l (executable), as Go's strings.Contains. -/
def infixOfList : List Nat → List Nat → Bool
  | sub, [] => sub.isEmpty
  | sub, b :: bs => prefixOfList sub (b :: bs) || infixOfList sub bs

/-- Model of strings.Contains(strings.ToLower s, strings.ToLower sub). -/
def containsFold (s sub : String) : Bool := infixOfList (lowerCodes sub) (lowerCodes s)

/-- Model of strings.EqualFold (ASCII case folding). -/
def equalFold (a b : String) : Bool := lowerCodes a == lowerCodes b

/-- ASCII upper-casing of one character, as Go's strings.ToUpper does for ASCII. -/
def upperChar (c : Char) : Char :=
  if 97 ≤ c.toNat ∧ c.toNat ≤ 122 then Char.ofNat (c.toNat - 32) else c

/-- Model of strings.ToUpper at ASCII level. -/
def upperStr (s : String) : String := ⟨s.data.map upperChar⟩

/-- Printing (domain/types.go).  Only the fields read by the engine are kept;
the remaining fields (edition, rarity, artwork, ...) are never consulted by
any of the operations embedded here. -/
structure Printing where
  UniqueID : String
  SetID : String
  deriving DecidableEq

/-- Card (domain/types.go).  Fields never read by the search/legality engine
(cost, power, traits, rich text, date stamps, ...) are omitted. -/
structure Card where
  UniqueID : String
  Name : String
  Pitch : String
  Types : List String
  CardKeywords : List String
  FunctionalTextPlain : String
  BlitzLegal : Bool
  CCLegal : Bool
  CommonerLegal : Bool
  LLLegal : Bool
  SilverAgeLegal : Bool
  BlitzLivingLegend : Bool
  CCLivingLegend : Bool
  BlitzBanned : Bool
  CCBanned : Bool
  CommonerBanned : Bool
  LLBanned : Bool
  SilverAgeBanned : Bool
  UPFBanned : Bool
  BlitzSuspended : Bool
  CCSuspended : Bool
  CommonerSuspended : Bool
  LLRestricted : Bool
  Printings : List Printing
  deriving DecidableEq

/-- Format constants (domain/types.go). -/
def FormatBlitz : String := "blitz"
def FormatCC : String := "cc"
def FormatCommoner : String := "commoner"
def FormatLL : String := "ll"
def FormatSilverAge : String := "silver_age"
def FormatUPF : String := "upf"

/-- Legality (domain/types.go).  Go's zero values for omitted fields are the
explicit false here. -/
structure Legality where
  Format : String
  Legal : Bool
  LivingLegend : Bool
  Banned : Bool
  Suspended : Bool
  Restricted : Bool
  deriving DecidableEq

/-- Card.GetLegality (domain/types.go): the switch over the format string. -/
def Card.GetLegality (c : Card) (format : String) : Legality :=
  if format = FormatBlitz then
    { Format := format
      Legal := c.BlitzLegal && !c.BlitzBanned && !c.BlitzSuspended && !c.BlitzLivingLegend
      LivingLegend := c.BlitzLivingLegend
      Banned := c.BlitzBanned
      Suspended := c.BlitzSuspended
      Restricted := false }
  else if format = FormatCC then
    { Format := format
      Legal := c.CCLegal && !c.CCBanned && !c.CCSuspended && !c.CCLivingLegend
      LivingLegend := c.CCLivingLegend
      Banned := c.CCBanned
      Suspended := c.CCSuspended
      Restricted := false }
  else if format = FormatCommoner then
    { Format := format
      Legal := c.CommonerLegal && !c.CommonerBanned && !c.CommonerSuspended
      LivingLegend := false
      Banned := c.CommonerBanned
      Suspended := c.CommonerSuspended
      Restricted := false }
  else if format = FormatLL then
    { Format := format
      Legal := c.LLLegal && !c.LLBanned && !c.LLRestricted
      LivingLegend := false
      Banned := c.LLBanned
      Suspended := false
      Restricted := c.LLRestricted }
  else if format = FormatSilverAge then
    { Format := format
      Legal := c.SilverAgeLegal && !c.SilverAgeBanned
      LivingLegend := false
      Banned := c.SilverAgeBanned
      Suspended := false
      Restricted := false }
  else if format = FormatUPF then
    { Format := format
      Legal := !c.UPFBanned
      LivingLegend := false
      Banned := c.UPFBanned
      Suspended := false
      Restricted := false }
  else
    { Format := format, Legal := false, LivingLegend := false, Banned := false
      Suspended := false, Restricted := false }

/-- Card.HasType (domain/types.go): slices.Contains on the Types tags. -/
def Card.HasType (c : Card) (typeName : String) : Bool := c.Types.contains typeName

/-- The fixed class enumeration of Card.GetClass (domain/types.go), given there
as a map-literal set. -/
def classList : List String :=
  ["Generic", "Warrior", "Brute", "Guardian",
   "Ninja", "Mechanologist", "Ranger", "Runeblade",
   "Wizard", "Illusionist", "Elemental", "Light",
   "Shadow", "Ice", "Lightning", "Earth",
   "Mystic", "Assassin", "Shapeshifter", "Bard",
   "Adjudicator", "Necromancer", "Draconic", "Royal"]

/-- Card.GetClass (domain/types.go): the first type tag that is in the class
enumeration, or the empty string. -/
def Card.GetClass (c : Card) : String :=
  match c.Types.find? (fun t => classList.contains t) with
  | some t => t
  | none => ""

/-- "C2": GetLegality computes Legal per the per-format table (Blitz/CC:
base-legal and not banned/suspended/living-legend; Commoner: base-legal and not
banned/suspended; LL: base-legal and not banned/restricted; Silver Age:
base-legal and not banned; UPF: not banned, base-legal flag unread), carries the
raw flags relevant to the format, leaves irrelevant flags false, and for UPF is
unchanged by arbitrary rewrites of all five base-legal flags. -/
theorem c2_legality_table (c : Card) :
    (c.GetLegality FormatBlitz).Legal
      = (c.BlitzLegal && !c.BlitzBanned && !c.BlitzSuspended && !c.BlitzLivingLegend) ∧
    (c.GetLegality FormatCC).Legal
      = (c.CCLegal && !c.CCBanned && !c.CCSuspended && !c.CCLivingLegend) ∧
    (c.GetLegality FormatCommoner).Legal
      = (c.CommonerLegal && !c.CommonerBanned && !c.CommonerSuspended) ∧
    (c.GetLegality FormatLL).Legal = (c.LLLegal && !c.LLBanned && !c.LLRestricted) ∧
    (c.GetLegality FormatSilverAge).Legal = (c.SilverAgeLegal && !c.SilverAgeBanned) ∧
    (c.GetLegality FormatUPF).Legal = !c.UPFBanned ∧
    (c.GetLegality FormatBlitz).LivingLegend = c.BlitzLivingLegend ∧
    (c.GetLegality FormatBlitz).Banned = c.BlitzBanned ∧
    (c.GetLegality FormatBlitz).Suspended = c.BlitzSuspended ∧
    (c.GetLegality FormatBlitz).Restricted = false ∧
    (c.GetLegality FormatCC).LivingLegend = c.CCLivingLegend ∧
    (c.GetLegality FormatCC).Banned = c.CCBanned ∧
    (c.GetLegality FormatCC).Suspended = c.CCSuspended ∧
    (c.GetLegality FormatCC).Restricted = false ∧
    (c.GetLegality FormatCommoner).Banned = c.CommonerBanned ∧
    (c.GetLegality FormatCommoner).Suspended = c.CommonerSuspended ∧
    (c.GetLegality FormatCommoner).LivingLegend = false ∧
    (c.GetLegality FormatCommoner).Restricted = false ∧
    (c.GetLegality FormatLL).Banned = c.LLBanned ∧
    (c.GetLegality FormatLL).Restricted = c.LLRestricted ∧
    (c.GetLegality FormatLL).LivingLegend = false ∧
    (c.GetLegality FormatLL).Suspended = false ∧
    (c.GetLegality FormatSilverAge).Banned = c.SilverAgeBanned ∧
    (c.GetLegality FormatSilverAge).LivingLegend = false ∧
    (c.GetLegality FormatSilverAge).Suspended = false ∧
    (c.GetLegality FormatSilverAge).Restricted = false ∧
    (c.GetLegality FormatUPF).Banned = c.UPFBanned ∧
    (c.GetLegality FormatUPF).LivingLegend = false ∧
    (c.GetLegality FormatUPF).Suspended = false ∧
    (c.GetLegality FormatUPF).Restricted = false ∧
    (∀ v w x y z : Bool,
      ({ c with BlitzLegal := v, CCLegal := w, CommonerLegal := x,
                LLLegal := y, SilverAgeLegal := z } : Card).GetLegality FormatUPF
        = c.GetLegality FormatUPF) := by
  refine ⟨?_, ?_, ?_, ?_, ?_, ?_, ?_, ?_, ?_, ?_, ?_, ?_, ?_, ?_, ?_, ?_, ?_, ?_,
          ?_, ?_, ?_, ?_, ?_, ?_, ?_, ?_, ?_, ?_, ?_, ?_, ?_⟩ <;>
    first
      | (intro v w x y z; simp [Card.GetLegality, FormatBlitz, FormatCC, FormatCommoner,
          FormatLL, FormatSilverAge, FormatUPF])
      | simp [Card.GetLegality, FormatBlitz, FormatCC, FormatCommoner,
          FormatLL, FormatSilverAge, FormatUPF]

/-- Association-list lookup, modelling a Go map read m[k] (none is Go's nil). -/
def aLookup : List (String × List Card) → String → Option (List Card)
  | [], _ => none
  | (k0, v) :: rest, k => if k0 = k then some v else aLookup rest k

/-- Modelling m[k] = append(m[k], c): append c to the bucket of k, creating the
bucket when absent. -/
def aInsert : List (String × List Card) → String → Card → List (String × List Card)
  | [], k, c => [(k, [c])]
  | (k0, v) :: rest, k, c =>
      if k0 = k then (k0, v ++ [c]) :: rest else (k0, v) :: aInsert rest k c

/-- Store (data/store.go), restricted to the collections and indexes the
search engine reads. -/
structure Store where
  Cards : List Card
  CardsByClass : List (String × List Card)
  CardsByType : List (String × List Card)
  CardsByKeyword : List (String × List Card)
  CardsBySetID : List (String × List Card)
  deriving DecidableEq

/-- Index construction of loadCards (data/store.go).  The Go code fills all
indexes in one pass over the cards; one fold per index builds the same buckets
in the same per-bucket order. -/
def loadCards (cards : List Card) : Store :=
  { Cards := cards
    CardsByClass := cards.foldl
      (fun m c => if c.GetClass ≠ "" then aInsert m c.GetClass c else m) []
    CardsByType := cards.foldl
      (fun m c => c.Types.foldl (fun m t => aInsert m t c) m) []
    CardsByKeyword := cards.foldl
      (fun m c => c.CardKeywords.foldl (fun m k => aInsert m k c) m) []
    CardsBySetID := cards.foldl
      (fun m c => c.Printings.foldl (fun m p => aInsert m p.SetID c) m) [] }

/-- CardFilter (data/store.go).  Limit and Offset are Go ints. -/
structure CardFilter where
  Name : String
  «Type» : String
  Class : String
  SetID : String
  Pitch : String
  Keyword : String
  TextQuery : String
  LegalIn : String
  Limit : Int
  Offset : Int
  deriving DecidableEq

/-- The all-empty filter (Go zero value). -/
def emptyFilter : CardFilter :=
  { Name := "", «Type» := "", Class := "", SetID := "", Pitch := "", Keyword := ""
    TextQuery := "", LegalIn := "", Limit := 0, Offset := 0 }

/-- matchesFilter (data/store.go).  The Go function is a chain of early
returns of false; each conjunct below is the pass condition of one of them. -/
def Store.matchesFilter (s : Store) (card : Card) (f : CardFilter) : Bool :=
  (f.Name == "" || containsFold card.Name f.Name) &&
  (f.«Type» == "" || !(aLookup s.CardsByType f.«Type»).isNone || card.HasType f.«Type») &&
  (f.Class == "" || !(aLookup s.CardsByClass f.Class).isNone
      || equalFold card.GetClass f.Class) &&
  (f.SetID == "" || !(aLookup s.CardsBySetID (upperStr f.SetID)).isNone
      || card.Printings.any (fun p => equalFold p.SetID f.SetID)) &&
  (f.Pitch == "" || card.Pitch == f.Pitch) &&
  (f.Keyword == "" || card.CardKeywords.any (fun k => containsFold k f.Keyword)) &&
  (f.TextQuery == "" || containsFold card.FunctionalTextPlain f.TextQuery) &&
  (f.LegalIn == "" || (card.GetLegality f.LegalIn).Legal)

/-- Candidate selection of SearchCards (data/store.go).  kwOrder is the
iteration order of the Go map range over CardsByKeyword, passed explicitly
because Go leaves it unspecified; when no keyword bucket matches, usingIndex
stays false and the full collection is scanned. -/
def Store.selectCandidates (s : Store) (kwOrder : List (String × List Card))
    (f : CardFilter) : List Card :=
  if f.Class ≠ "" then (aLookup s.CardsByClass f.Class).getD []
  else if f.«Type» ≠ "" then (aLookup s.CardsByType f.«Type»).getD []
  else if f.Keyword ≠ "" then
    match kwOrder.find? (fun p => containsFold p.1 f.Keyword) with
    | some p => p.2
    | none => s.Cards
  else if f.SetID ≠ "" then (aLookup s.CardsBySetID (upperStr f.SetID)).getD []
  else s.Cards

/-- The fully filtered, pre-pagination result list of SearchCards. -/
def Store.preResults (s : Store) (kwOrder : List (String × List Card))
    (f : CardFilter) : List Card :=
  (s.selectCandidates kwOrder f).filter (fun c => s.matchesFilter c f)

/-- SearchCards (data/store.go): candidates, residual filtering, then
pagination; returns the page and the pre-pagination total. -/
def Store.SearchCards (s : Store) (kwOrder : List (String × List Card))
    (f : CardFilter) : List Card × Nat :=
  let results := s.preResults kwOrder f
  let total := results.length
  if 0 < f.Offset then
    if (results.length : Int) ≤ f.Offset then ([], total)
    else
      let page := results.drop f.Offset.toNat
      if 0 < f.Limit ∧ f.Limit < (page.length : Int) then (page.take f.Limit.toNat, total)
      else (page, total)
  else
    if 0 < f.Limit ∧ f.Limit < (results.length : Int) then (results.take f.Limit.toNat, total)
    else (results, total)

/-- GetCardsInSet (data/store.go): the seen-map deduplication loop. -/
def dedupSeen : List String → List Card → List Card
  | _, [] => []
  | seen, c :: rest =>
      if c.UniqueID ∈ seen then dedupSeen seen rest
      else c :: dedupSeen (c.UniqueID :: seen) rest

/-- GetCardsInSet (data/store.go). -/
def Store.GetCardsInSet (s : Store) (setID : String) : List Card :=
  dedupSeen [] ((aLookup s.CardsBySetID (upperStr setID)).getD [])

/-- The spec's pagination contract, written from the claim's words: empty page
when offset is at or past the total, otherwise slice from the offset (negative
treated as zero) and truncate to limit when limit is positive. -/
def specPaginate (f : CardFilter) (results : List Card) : List Card :=
  if (results.length : Int) ≤ f.Offset then []
  else
    let page := results.drop f.Offset.toNat
    if 0 < f.Limit then page.take f.Limit.toNat else page

/-- The spec's single-card predicate semantics, written from the spec's words
(section 4.3): every non-empty filter field is one conjunct, with no
index-related skipping. -/
def specMatches (card : Card) (f : CardFilter) : Bool :=
  (f.Name == "" || containsFold card.Name f.Name) &&
  (f.«Type» == "" || card.HasType f.«Type») &&
  (f.Class == "" || equalFold card.GetClass f.Class) &&
  (f.SetID == "" || card.Printings.any (fun p => equalFold p.SetID f.SetID)) &&
  (f.Pitch == "" || card.Pitch == f.Pitch) &&
  (f.Keyword == "" || card.CardKeywords.any (fun k => containsFold k f.Keyword)) &&
  (f.TextQuery == "" || containsFold card.FunctionalTextPlain f.TextQuery) &&
  (f.LegalIn == "" || (card.GetLegality f.LegalIn).Legal)

/-- The spec's brute-force full scan over the card collection. -/
def bruteForce (cards : List Card) (f : CardFilter) : List Card :=
  cards.filter (fun c => specMatches c f)

/-! Concrete fixtures used by counterexamples and witnesses. -/

/-- A card with the given identity, types, keywords and printings; every other
field is the Go zero value. -/
def mkCard (uid nm : String) (tys kws : List String) (prs : List Printing) : Card :=
  { UniqueID := uid, Name := nm, Pitch := "", Types := tys, CardKeywords := kws
    FunctionalTextPlain := "", BlitzLegal := false, CCLegal := false
    CommonerLegal := false, LLLegal := false, SilverAgeLegal := false
    BlitzLivingLegend := false, CCLivingLegend := false, BlitzBanned := false
    CCBanned := false, CommonerBanned := false, LLBanned := false
    SilverAgeBanned := false, UPFBanned := false, BlitzSuspended := false
    CCSuspended := false, CommonerSuspended := false, LLRestricted := false
    Printings := prs }

def cardNinja : Card := mkCard "n1" "NinjaCard" ["Ninja"] [] []
def cardAction : Card := mkCard "a1" "ActionCard" ["Action"] [] []
def exClassType : List Card := [cardNinja, cardAction]
def fClassType : CardFilter := { emptyFilter with Class := "Ninja", «Type» := "Action" }

def exNinja : List Card := [cardNinja]

def cardAlpha : Card := mkCard "ka" "CardA" [] ["Alpha"] []
def cardBeta : Card := mkCard "kb" "CardB" [] ["Beta"] []
def exKw : List Card := [cardAlpha, cardBeta]
def fKw : CardFilter := { emptyFilter with Keyword := "a" }
def kwOrderA : List (String × List Card) := [("Alpha", [cardAlpha]), ("Beta", [cardBeta])]
def kwOrderB : List (String × List Card) := [("Beta", [cardBeta]), ("Alpha", [cardAlpha])]

def cardTwin : Card := mkCard "t1" "Twin" [] [] [⟨"p1", "WTR"⟩, ⟨"p2", "WTR"⟩]
def exTwin : List Card := [cardTwin]
def fSetWTR : CardFilter := { emptyFilter with SetID := "WTR" }

/-- "C1" (counterexample): with cards Ninja-only and Action-only and the filter
class Ninja, type Action, the index-accelerated pre-pagination result keeps the
Ninja card (its type predicate is skipped because an Action bucket exists in
CardsByType), while the brute-force scan applying all predicates is empty. -/
theorem c1_counterexample :
    (loadCards exClassType).preResults (loadCards exClassType).CardsByKeyword fClassType
      ≠ bruteForce exClassType fClassType := by decide

/-- "C3" (counterexample): on a store holding one Ninja card, the class filter
Ninja returns the card but the class filter ninja returns an empty page with
total 0: the candidate lookup in CardsByClass is case-sensitive. -/
theorem c3_counterexample :
    (loadCards exNinja).SearchCards (loadCards exNinja).CardsByKeyword
        { emptyFilter with Class := "Ninja" }
      ≠ (loadCards exNinja).SearchCards (loadCards exNinja).CardsByKeyword
        { emptyFilter with Class := "ninja" } := by decide

/-- "C4" (counterexample): on a store holding one card, the unknown format
token modern returns an empty page with total 0, not the result of the same
filter with legalIn absent. -/
theorem c4_counterexample :
    (loadCards exNinja).SearchCards (loadCards exNinja).CardsByKeyword
        { emptyFilter with LegalIn := "modern" }
      ≠ (loadCards exNinja).SearchCards (loadCards exNinja).CardsByKeyword emptyFilter := by
  decide

/-- "C8" (counterexample): two iteration orders of the same keyword index map
(permutations of each other, as Go map range order is unspecified) give
different results for the substring keyword query a on the same store. -/
theorem c8_counterexample :
    List.Perm kwOrderB ((loadCards exKw).CardsByKeyword) ∧
    (loadCards exKw).SearchCards kwOrderA fKw ≠ (loadCards exKw).SearchCards kwOrderB fKw := by
  constructor
  · decide
  · decide

/-- SearchCards is the pre-pagination result paginated per the spec contract,
with the pre-pagination length as total. -/
theorem SearchCards_eq_specPaginate (s : Store) (kw : List (String × List Card))
    (f : CardFilter) :
    s.SearchCards kw f = (specPaginate f (s.preResults kw f), (s.preResults kw f).length) := by
  have hkey : ∀ R : List Card,
      (if 0 < f.Offset then
        if (R.length : Int) ≤ f.Offset then (([] : List Card), R.length)
        else
          let page := R.drop f.Offset.toNat
          if 0 < f.Limit ∧ f.Limit < (page.length : Int) then (page.take f.Limit.toNat, R.length)
          else (page, R.length)
      else
        if 0 < f.Limit ∧ f.Limit < (R.length : Int) then (R.take f.Limit.toNat, R.length)
        else (R, R.length))
      = (specPaginate f R, R.length) := by
    intro R
    unfold specPaginate
    by_cases h1 : 0 < f.Offset
    · by_cases h2 : (R.length : Int) ≤ f.Offset
      · simp [h1, h2]
      · by_cases h3 : 0 < f.Limit
        · by_cases h4 : f.Limit < ((R.drop f.Offset.toNat).length : Int)
          · simp only [h1, if_true, h2, if_false, h3, h4, and_self, true_and]
          · have hle : (R.drop f.Offset.toNat).length ≤ f.Limit.toNat := by omega
            simp [h1, h2, h3, h4, List.take_of_length_le hle]
        · have h3' : ¬ (0 < f.Limit ∧ f.Limit < ((R.drop f.Offset.toNat).length : Int)) := by
            intro h; exact h3 h.1
          simp [h1, h2, h3, h3']
    · by_cases h2 : (R.length : Int) ≤ f.Offset
      · have hlen : R.length = 0 := by omega
        have hnil : R = [] := List.length_eq_zero.mp hlen
        subst hnil
        simp [h1, h2]
      · have hdrop : f.Offset.toNat = 0 := by omega
        by_cases h3 : 0 < f.Limit
        · by_cases h4 : f.Limit < (R.length : Int)
          · simp [h1, h2, h3, h4, hdrop]
          · have hle : R.length ≤ f.Limit.toNat := by omega
            simp [h1, h2, h3, h4, hdrop, List.take_of_length_le hle]
        · have h3' : ¬ (0 < f.Limit ∧ f.Limit < (R.length : Int)) := by
            intro h; exact h3 h.1
          simp [h1, h2, h3, h3', hdrop]
  simpa only [Store.SearchCards] using hkey (s.preResults kw f)

/-- "C5": SearchCards pagination postcondition: the returned total is always
the pre-pagination count, and the page is the spec pagination of the filtered
result: empty when offset is at or past the total (never an error), otherwise
the slice from offset (negative treated as zero) truncated to limit when limit
is positive and unbounded otherwise. -/
theorem c5_pagination (s : Store) (kw : List (String × List Card)) (f : CardFilter) :
    s.SearchCards kw f = (specPaginate f (s.preResults kw f), (s.preResults kw f).length) :=
  SearchCards_eq_specPaginate s kw f

/-- specPaginate of an empty result list is empty. -/
theorem specPaginate_nil (f : CardFilter) : specPaginate f [] = [] := by
  unfold specPaginate
  split
  · rfl
  · simp

/-- "C4" (amended): a non-empty legalIn token that is none of the six known
formats is an unsatisfiable constraint, not a neutral one: every card fails the
legality clause, so SearchCards returns an empty page with total 0 — still with
no query-time error. -/
theorem c4_unknown_format (s : Store) (kw : List (String × List Card)) (f : CardFilter)
    (h1 : f.LegalIn ≠ "")
    (h2 : f.LegalIn ∉ [FormatBlitz, FormatCC, FormatCommoner, FormatLL,
                       FormatSilverAge, FormatUPF]) :
    s.SearchCards kw f = ([], 0) := by
  simp only [List.mem_cons, List.not_mem_nil, or_false, not_or] at h2
  obtain ⟨hb, hc, hm, hl, hs2, hu⟩ := h2
  have hleg : ∀ c : Card, (c.GetLegality f.LegalIn).Legal = false := by
    intro c
    unfold Card.GetLegality
    simp [hb, hc, hm, hl, hs2, hu]
  have hmatch : ∀ c : Card, s.matchesFilter c f = false := by
    intro c
    unfold Store.matchesFilter
    have h1' : (f.LegalIn == "") = false := beq_eq_false_iff_ne.mpr h1
    simp [hleg c, h1']
  have hpre : s.preResults kw f = [] := by
    unfold Store.preResults
    exact List.filter_eq_nil_iff.mpr (fun c _ => by simp [hmatch c])
  rw [SearchCards_eq_specPaginate, hpre, specPaginate_nil]
  rfl

/-- Closed witness for c4_unknown_format at a one-card store and the unknown
token modern. -/
theorem c4_witness :
    (loadCards exNinja).SearchCards (loadCards exNinja).CardsByKeyword
      { emptyFilter with LegalIn := "modern" } = ([], 0) :=
  c4_unknown_format _ _ _ (by decide) (by decide)

/-- "C8" (amended): SearchCards is independent of the keyword-index iteration
order whenever the keyword filter field is empty; only substring keyword
queries consult the (order-unspecified) map range.  GetLegality is a pure
function of its card and format arguments. -/
theorem c8_amended_determinism (s : Store) (o1 o2 : List (String × List Card))
    (f : CardFilter) (h : f.Keyword = "") :
    s.SearchCards o1 f = s.SearchCards o2 f := by
  have hc : s.selectCandidates o1 f = s.selectCandidates o2 f := by
    unfold Store.selectCandidates
    simp [h]
  unfold Store.SearchCards Store.preResults
  rw [hc]

/-- Closed witness for c8_amended_determinism: a keyword-free filter on the
two-bucket store gives the same answer under both iteration orders. -/
theorem c8_witness :
    (loadCards exKw).SearchCards kwOrderB emptyFilter
      = (loadCards exKw).SearchCards kwOrderA emptyFilter :=
  c8_amended_determinism _ _ _ _ rfl

/-! Characterisation of the index buckets built by loadCards. -/

/-- The bucket contents after one aInsert. -/
theorem aLookup_aInsert (m : List (String × List Card)) (k : String) (c : Card) (q : String) :
    aLookup (aInsert m k c) q
      = if q = k then some ((aLookup m k).getD [] ++ [c]) else aLookup m q := by
  induction m with
  | nil =>
      simp only [aInsert, aLookup]
      by_cases h : q = k
      · subst h; simp
      · have h2 : ¬ k = q := fun h2 => h h2.symm
        simp [h, h2]
  | cons p rest ih =>
      obtain ⟨k0, v⟩ := p
      simp only [aInsert]
      by_cases h0 : k0 = k
      · subst h0
        simp only [if_pos rfl, aLookup]
        by_cases hq : k0 = q
        · subst hq; simp
        · have h2 : ¬ q = k0 := fun h2 => hq h2.symm
          simp [hq, h2]
      · simp only [if_neg h0, aLookup, ih]
        by_cases hq : k0 = q
        · subst hq
          simp [h0]
        · simp [hq, h0]

/-- Merge of an existing optional bucket with newly appended members. -/
def combineOpt (o : Option (List Card)) (l : List Card) : Option (List Card) :=
  match l with
  | [] => o
  | _ :: _ => some (o.getD [] ++ l)

theorem getD_combineOpt (o : Option (List Card)) (l : List Card) :
    (combineOpt o l).getD [] = o.getD [] ++ l := by
  cases l <;> simp [combineOpt]

theorem combineOpt_cons (o : Option (List Card)) (c : Card) (l : List Card) :
    combineOpt o (c :: l) = some (o.getD [] ++ c :: l) := rfl

theorem combineOpt_snoc (x : List Card) (c : Card) (l : List Card) :
    combineOpt (some (x ++ [c])) l = some (x ++ c :: l) := by
  cases l <;> simp [combineOpt]

theorem combineOpt_append (o : Option (List Card)) (l1 l2 : List Card) :
    combineOpt (combineOpt o l1) l2 = combineOpt o (l1 ++ l2) := by
  cases l1 <;> cases l2 <;> simp [combineOpt, getD_combineOpt]

theorem combineOpt_none_eq (l : List Card) :
    combineOpt none l = if l = [] then none else some l := by
  cases l <;> simp [combineOpt]

/-- One card inserted under a list of keys: effect on an arbitrary bucket. -/
theorem aLookup_foldKeys (c : Card) (keys : List String)
    (m : List (String × List Card)) (q : String) :
    aLookup (keys.foldl (fun m t => aInsert m t c) m) q
      = combineOpt (aLookup m q) ((keys.filter (fun t => t == q)).map (fun _ => c)) := by
  induction keys generalizing m with
  | nil => simp [combineOpt]
  | cons t ts ih =>
      simp only [List.foldl_cons]
      rw [ih, aLookup_aInsert]
      by_cases h : t = q
      · subst h
        simp only [if_pos rfl, List.filter_cons, beq_self_eq_true, if_true, List.map_cons,
          combineOpt_snoc]
        rw [combineOpt_cons]
      · have hb : (t == q) = false := beq_eq_false_iff_ne.mpr h
        have hq : ¬ q = t := fun h2 => h h2.symm
        simp only [if_neg hq, List.filter_cons, hb]
        simp

/-- Folding a whole card collection into an index, one key list per card. -/
theorem aLookup_buildIndex (g : Card → List String) (cards : List Card)
    (m : List (String × List Card)) (q : String) :
    aLookup (cards.foldl (fun m c => (g c).foldl (fun m t => aInsert m t c) m) m) q
      = combineOpt (aLookup m q)
          (cards.flatMap (fun c => ((g c).filter (fun t => t == q)).map (fun _ => c))) := by
  induction cards generalizing m with
  | nil => simp [combineOpt]
  | cons c cs ih =>
      simp only [List.foldl_cons, List.flatMap_cons]
      rw [ih, aLookup_foldKeys, combineOpt_append]

/-- A flatMap of singleton-or-empty contributions is a filter. -/
theorem flatMap_ite_singleton (l : List Card) (p : Card → Bool) :
    (l.flatMap (fun c => if p c then [c] else [])) = l.filter p := by
  induction l with
  | nil => rfl
  | cons c cs ih =>
      by_cases h : p c <;> simp [h, ih]

/-- The class index bucket of a non-empty key holds exactly the cards whose
derived class is that key, in collection order. -/
theorem lookup_CardsByClass (cards : List Card) (q : String) (hq : q ≠ "") :
    aLookup (loadCards cards).CardsByClass q
      = combineOpt none (cards.filter (fun c => c.GetClass == q)) := by
  unfold loadCards
  simp only []
  have hstep : (fun (m : List (String × List Card)) (c : Card) =>
        if c.GetClass ≠ "" then aInsert m c.GetClass c else m)
      = (fun m c => (if c.GetClass = "" then [] else [c.GetClass]).foldl
          (fun m t => aInsert m t c) m) := by
    funext m c
    by_cases h : c.GetClass = "" <;> simp [h]
  rw [hstep, aLookup_buildIndex]
  have hterm : ∀ c : Card,
      (((if c.GetClass = "" then [] else [c.GetClass]).filter (fun t => t == q)).map
        (fun _ => c))
      = if c.GetClass == q then [c] else [] := by
    intro c
    by_cases h : c.GetClass = ""
    · have hb : (c.GetClass == q) = false := by
        rw [h]; exact beq_eq_false_iff_ne.mpr (fun h2 => hq h2.symm)
      have h3 : ¬ ("" : String) = q := fun h2 => hq h2.symm
      simp [h, hb, h3]
    · by_cases h2 : c.GetClass = q
      · simp [h, h2, hq]
      · have hb : (c.GetClass == q) = false := beq_eq_false_iff_ne.mpr h2
        simp [h, hb]
  simp only [hterm, flatMap_ite_singleton, aLookup]

/-- The class index never holds a bucket for the empty key. -/
theorem lookup_CardsByClass_empty (cards : List Card) :
    aLookup (loadCards cards).CardsByClass "" = none := by
  unfold loadCards
  simp only []
  have hstep : (fun (m : List (String × List Card)) (c : Card) =>
        if c.GetClass ≠ "" then aInsert m c.GetClass c else m)
      = (fun m c => (if c.GetClass = "" then [] else [c.GetClass]).foldl
          (fun m t => aInsert m t c) m) := by
    funext m c
    by_cases h : c.GetClass = "" <;> simp [h]
  rw [hstep, aLookup_buildIndex]
  have hterm : ∀ c : Card,
      (((if c.GetClass = "" then [] else [c.GetClass]).filter (fun t => t == ("" : String))).map
        (fun _ => c))
      = ([] : List Card) := by
    intro c
    by_cases h : c.GetClass = ""
    · simp [h]
    · have hb : (c.GetClass == ("" : String)) = false := beq_eq_false_iff_ne.mpr h
      simp [h, hb]
  simp only [hterm]
  have hnil : (cards.flatMap fun _ : Card => ([] : List Card)) = [] := by simp
  rw [hnil]
  simp [combineOpt, aLookup]

/-- The type index bucket holds one entry per occurrence of the key in a
card's type tags, in collection order. -/
theorem lookup_CardsByType (cards : List Card) (q : String) :
    aLookup (loadCards cards).CardsByType q
      = combineOpt none
          (cards.flatMap (fun c => ((c.Types.filter (fun t => t == q)).map (fun _ => c)))) := by
  unfold loadCards
  simp only []
  rw [aLookup_buildIndex]
  rfl

/-- The set index bucket holds one entry per printing with the key as its set
code, in collection order. -/
theorem lookup_CardsBySetID (cards : List Card) (q : String) :
    aLookup (loadCards cards).CardsBySetID q
      = combineOpt none
          (cards.flatMap (fun c =>
            (((c.Printings.map Printing.SetID).filter (fun t => t == q)).map (fun _ => c)))) := by
  unfold loadCards
  simp only []
  have hstep : (fun (m : List (String × List Card)) (c : Card) =>
        c.Printings.foldl (fun m p => aInsert m p.SetID c) m)
      = (fun m c => (c.Printings.map Printing.SetID).foldl (fun m t => aInsert m t c) m) := by
    funext m c
    rw [List.foldl_map]
  rw [hstep, aLookup_buildIndex]
  rfl

/-- Every card on a returned page is in the pre-pagination result. -/
theorem mem_page_preResults (s : Store) (kw : List (String × List Card)) (f : CardFilter)
    (c : Card) (h : c ∈ (s.SearchCards kw f).1) : c ∈ s.preResults kw f := by
  rw [SearchCards_eq_specPaginate] at h
  simp only [specPaginate] at h
  split at h
  · simp at h
  · split at h
    · exact List.drop_subset _ _ (List.take_subset _ _ h)
    · exact List.drop_subset _ _ h

/-- Every card in the pre-pagination result is a candidate. -/
theorem preResults_subset (s : Store) (kw : List (String × List Card)) (f : CardFilter)
    (c : Card) (h : c ∈ s.preResults kw f) : c ∈ s.selectCandidates kw f :=
  List.mem_of_mem_filter h

/-- Every member of a class bucket has that bucket's key as its derived class,
and the empty key has no bucket. -/
theorem mem_CardsByClass_bucket (cards : List Card) (q : String) (b : List Card)
    (h : aLookup (loadCards cards).CardsByClass q = some b) :
    q ≠ "" ∧ ∀ d ∈ b, d.GetClass = q := by
  by_cases hq : q = ""
  · subst hq
    rw [lookup_CardsByClass_empty] at h
    exact absurd h (by simp)
  · refine ⟨hq, ?_⟩
    rw [lookup_CardsByClass cards q hq, combineOpt_none_eq] at h
    split at h
    · exact absurd h (by simp)
    · intro d hd
      have hb : b = cards.filter (fun c => c.GetClass == q) := by
        injection h.symm
      rw [hb] at hd
      have := List.of_mem_filter hd
      exact eq_of_beq this

/-- "C3" (amended): the class predicate is exact and case-sensitive, not
case-insensitive: every card on the page of a non-empty class query has
exactly that class string as its derived class, and a class value that is not
a key of the class index (for example a differently-cased spelling of a real
class) yields an empty page with total 0. -/
theorem c3_amended (cards : List Card) (kw : List (String × List Card)) (f : CardFilter)
    (h : f.Class ≠ "") :
    (∀ c ∈ ((loadCards cards).SearchCards kw f).1, c.GetClass = f.Class) ∧
    (aLookup (loadCards cards).CardsByClass f.Class = none →
      (loadCards cards).SearchCards kw f = ([], 0)) := by
  constructor
  · intro c hc
    have h1 := preResults_subset _ _ _ _ (mem_page_preResults _ _ _ _ hc)
    unfold Store.selectCandidates at h1
    rw [if_pos h] at h1
    cases hlk : aLookup (loadCards cards).CardsByClass f.Class with
    | none => rw [hlk] at h1; simp at h1
    | some b =>
        rw [hlk] at h1
        exact (mem_CardsByClass_bucket cards f.Class b hlk).2 c h1
  · intro hlk
    have hcand : (loadCards cards).selectCandidates kw f = [] := by
      unfold Store.selectCandidates
      rw [if_pos h, hlk]
      rfl
    have hpre : (loadCards cards).preResults kw f = [] := by
      unfold Store.preResults
      rw [hcand]
      rfl
    rw [SearchCards_eq_specPaginate, hpre, specPaginate_nil]
    rfl

/-- Closed witness for c3_amended on the one-Ninja-card store with the exact
key Ninja. -/
theorem c3_witness :
    (∀ c ∈ ((loadCards exNinja).SearchCards (loadCards exNinja).CardsByKeyword
        { emptyFilter with Class := "Ninja" }).1, c.GetClass = "Ninja") ∧
    (aLookup (loadCards exNinja).CardsByClass "Ninja" = none →
      (loadCards exNinja).SearchCards (loadCards exNinja).CardsByKeyword
        { emptyFilter with Class := "Ninja" } = ([], 0)) :=
  c3_amended exNinja (loadCards exNinja).CardsByKeyword _ (by decide)

/-- "C10": a card none of whose type tags is in the class enumeration derives
the empty class, lands in no class bucket, and is never returned by a search
with a non-empty class filter; conversely every card in a class bucket derives
exactly the bucket's key. -/
theorem c10_unclassed (cards : List Card) (c : Card)
    (hc : ∀ t ∈ c.Types, classList.contains t = false) :
    c.GetClass = "" ∧
    (∀ q b, aLookup (loadCards cards).CardsByClass q = some b → c ∉ b) ∧
    (∀ kw f, f.Class ≠ "" → c ∉ ((loadCards cards).SearchCards kw f).1) ∧
    (∀ q b, aLookup (loadCards cards).CardsByClass q = some b → ∀ d ∈ b, d.GetClass = q) := by
  have hget : c.GetClass = "" := by
    unfold Card.GetClass
    cases hf : c.Types.find? (fun t => classList.contains t) with
    | none => rfl
    | some t =>
        have h1 := List.find?_some hf
        have h2 := List.mem_of_find?_eq_some hf
        rw [hc t h2] at h1
        exact absurd h1 (by simp)
  have hnob : ∀ q b, aLookup (loadCards cards).CardsByClass q = some b → c ∉ b := by
    intro q b hb hmem
    obtain ⟨hq, hall⟩ := mem_CardsByClass_bucket cards q b hb
    exact hq ((hall c hmem ▸ hget).symm.trans rfl).symm
  refine ⟨hget, hnob, ?_, fun q b hb => (mem_CardsByClass_bucket cards q b hb).2⟩
  intro kw f hf hmem
  have h1 := preResults_subset _ _ _ _ (mem_page_preResults _ _ _ _ hmem)
  unfold Store.selectCandidates at h1
  rw [if_pos hf] at h1
  cases hlk : aLookup (loadCards cards).CardsByClass f.Class with
  | none => rw [hlk] at h1; simp at h1
  | some b =>
      rw [hlk] at h1
      exact hnob f.Class b hlk h1

/-- Closed witness for c10_unclassed: the Action-only card on the two-card
store. -/
theorem c10_witness :
    cardAction.GetClass = "" ∧
    (∀ q b, aLookup (loadCards exClassType).CardsByClass q = some b → cardAction ∉ b) ∧
    (∀ kw f, f.Class ≠ "" →
      cardAction ∉ ((loadCards exClassType).SearchCards kw f).1) ∧
    (∀ q b, aLookup (loadCards exClassType).CardsByClass q = some b →
      ∀ d ∈ b, d.GetClass = q) :=
  c10_unclassed exClassType cardAction (by decide)

/-- Concatenating enough consecutive length-l chunks reconstructs the list. -/
theorem flatMap_range_chunks (l : Nat) :
    ∀ (n : Nat) (L : List Card), L.length ≤ n * l →
      ((List.range n).flatMap (fun k => (L.drop (k * l)).take l)) = L := by
  intro n
  induction n with
  | zero =>
      intro L h
      have hz : L = [] := List.length_eq_zero.mp (by omega)
      subst hz
      rfl
  | succ n ih =>
      intro L h
      rw [List.range_succ_eq_map, List.flatMap_cons, List.flatMap_map]
      have hstep : ∀ k : Nat,
          (L.drop (Nat.succ k * l)).take l = ((L.drop l).drop (k * l)).take l := by
        intro k
        rw [List.drop_drop]
        congr 1
        rw [Nat.succ_mul, Nat.add_comm]
      simp only [hstep]
      rw [ih (L.drop l) (by rw [List.length_drop]; rw [Nat.succ_mul] at h; omega)]
      simp only [Nat.zero_mul, List.drop_zero]
      exact List.take_append_drop l L

/-- "C6": pagination completeness: with a positive limit, concatenating the
pages at offsets 0, limit, 2 limit, ... (any number of pages whose combined
capacity covers the total) reconstructs the unpaginated filtered result
exactly, in order, with no gaps and no duplicates. -/
theorem c6_pagination_completeness (s : Store) (kw : List (String × List Card))
    (f : CardFilter) (L : Int) (hL : 0 < L) (n : Nat)
    (hn : (s.preResults kw f).length ≤ n * L.toNat) :
    ((List.range n).flatMap
        (fun k => (s.SearchCards kw { f with Offset := (k : Int) * L, Limit := L }).1))
      = s.preResults kw f := by
  have hR : ∀ o ll : Int,
      s.preResults kw { f with Offset := o, Limit := ll } = s.preResults kw f :=
    fun o ll => rfl
  have hpage : ∀ k : Nat,
      (s.SearchCards kw { f with Offset := (k : Int) * L, Limit := L }).1
        = ((s.preResults kw f).drop (k * L.toNat)).take L.toNat := by
    intro k
    obtain ⟨m, hm⟩ : ∃ m : Nat, L = (m : Int) :=
      ⟨L.toNat, (Int.toNat_of_nonneg (by omega)).symm⟩
    subst hm
    rw [SearchCards_eq_specPaginate]
    simp only []
    rw [hR]
    unfold specPaginate
    dsimp only
    simp only [← Nat.cast_mul, Int.toNat_natCast]
    by_cases hc : (s.preResults kw f).length ≤ k * m
    · rw [if_pos (by exact_mod_cast hc)]
      rw [List.drop_eq_nil_of_le hc]
      simp
    · rw [if_neg (by exact_mod_cast hc)]
      rw [if_pos hL]
  simp only [hpage]
  exact flatMap_range_chunks L.toNat n _ hn

/-- Closed witness for c6_pagination_completeness: one page of limit 1 on the
one-card store. -/
theorem c6_witness :
    ((List.range 1).flatMap
        (fun k => ((loadCards exNinja).SearchCards (loadCards exNinja).CardsByKeyword
          { emptyFilter with Offset := (k : Int) * 1, Limit := 1 }).1))
      = (loadCards exNinja).preResults (loadCards exNinja).CardsByKeyword emptyFilter :=
  c6_pagination_completeness _ _ _ 1 (by decide) 1 (by decide)

/-- dedupSeen only keeps elements of its input, in order. -/
theorem dedupSeen_sublist (seen : List String) (l : List Card) :
    (dedupSeen seen l).Sublist l := by
  induction l generalizing seen with
  | nil => simp [dedupSeen]
  | cons c cs ih =>
      unfold dedupSeen
      by_cases h : c.UniqueID ∈ seen
      · rw [if_pos h]
        exact (ih seen).trans (List.sublist_cons_self c cs)
      · rw [if_neg h]
        exact List.Sublist.cons₂ c (ih (c.UniqueID :: seen))

/-- The unique IDs kept by dedupSeen: pairwise distinct, disjoint from the
seen accumulator, and complete for every unseen input ID. -/
theorem dedupSeen_uid_spec (seen : List String) (l : List Card) :
    ((dedupSeen seen l).map Card.UniqueID).Nodup ∧
    (∀ u ∈ (dedupSeen seen l).map Card.UniqueID, u ∉ seen) ∧
    (∀ c ∈ l, c.UniqueID ∉ seen → c.UniqueID ∈ (dedupSeen seen l).map Card.UniqueID) := by
  induction l generalizing seen with
  | nil => simp [dedupSeen]
  | cons c cs ih =>
      unfold dedupSeen
      by_cases h : c.UniqueID ∈ seen
      · rw [if_pos h]
        obtain ⟨ih1, ih2, ih3⟩ := ih seen
        refine ⟨ih1, ih2, ?_⟩
        intro d hd hdseen
        rcases List.mem_cons.mp hd with hd | hd
        · subst hd; exact absurd h hdseen
        · exact ih3 d hd hdseen
      · rw [if_neg h]
        obtain ⟨ih1, ih2, ih3⟩ := ih (c.UniqueID :: seen)
        refine ⟨?_, ?_, ?_⟩
        · rw [List.map_cons]
          refine List.Nodup.cons ?_ ih1
          intro hmem
          exact (ih2 c.UniqueID hmem) (by simp)
        · intro u hu
          rw [List.map_cons] at hu
          rcases List.mem_cons.mp hu with hu | hu
          · subst hu; exact h
          · intro huseen
            exact (ih2 u hu) (by simp [huseen])
        · intro d hd hdseen
          rcases List.mem_cons.mp hd with hd | hd
          · subst hd; simp
          · by_cases hid : d.UniqueID = c.UniqueID
            · simp [hid]
            · rw [List.map_cons]
              exact List.mem_cons_of_mem _
                (ih3 d hd (by simp [hdseen, hid]))

/-- "C7": GetCardsInSet contains each UniqueID at most once, is a sublist of
the set index bucket (so first-seen order is preserved), and covers every
UniqueID of the bucket. -/
theorem c7_set_dedup (s : Store) (code : String) :
    ((s.GetCardsInSet code).map Card.UniqueID).Nodup ∧
    (s.GetCardsInSet code).Sublist ((aLookup s.CardsBySetID (upperStr code)).getD []) ∧
    (∀ c ∈ (aLookup s.CardsBySetID (upperStr code)).getD [],
      c.UniqueID ∈ (s.GetCardsInSet code).map Card.UniqueID) := by
  unfold Store.GetCardsInSet
  obtain ⟨h1, _h2, h3⟩ :=
    dedupSeen_uid_spec [] ((aLookup s.CardsBySetID (upperStr code)).getD [])
  exact ⟨h1, dedupSeen_sublist _ _, fun c hc => h3 c hc (by simp)⟩

/-- specPaginate with zero offset and zero limit is the identity. -/
theorem specPaginate_zero (f : CardFilter) (R : List Card)
    (h1 : f.Offset = 0) (h2 : f.Limit = 0) : specPaginate f R = R := by
  unfold specPaginate
  rw [h1, h2]
  by_cases hc : (R.length : Int) ≤ 0
  · rw [if_pos hc]
    have : R.length = 0 := by omega
    exact (List.length_eq_zero.mp this).symm
  · rw [if_neg hc]
    simp

/-- Counting a card that occurs exactly once in the collection inside a
flatMap all of whose blocks only repeat their source card. -/
theorem count_flatMap_single (cards : List Card) (g : Card → List Card)
    (hg : ∀ x ∈ cards, ∀ y ∈ g x, y = x) (c : Card) (h1 : cards.count c = 1) :
    (cards.flatMap g).count c = (g c).length := by
  induction cards with
  | nil => simp at h1
  | cons x xs ih =>
      rw [List.flatMap_cons, List.count_append]
      by_cases hx : x = c
      · subst hx
        have hxs : xs.count x = 0 := by
          rw [List.count_cons_self] at h1; omega
        have hnot : x ∉ xs := by
          intro hmem
          rw [List.count_eq_zero] at hxs
          exact hxs hmem
        have hz : (xs.flatMap g).count x = 0 := by
          rw [List.count_eq_zero]
          intro hmem
          rw [List.mem_flatMap] at hmem
          obtain ⟨y, hy, hxy⟩ := hmem
          have hyx := hg y (List.mem_cons_of_mem _ hy) x hxy
          subst hyx
          exact hnot hy
        have hcnt : (g x).count x = (g x).length := by
          rw [List.count_eq_length]
          intro b hb
          have := hg x (List.mem_cons_self x xs) b hb
          simp [this]
        rw [hz, hcnt]
        simp
      · have hx0 : (g x).count c = 0 := by
          rw [List.count_eq_zero]
          intro hmem
          exact hx (hg x (List.mem_cons_self x xs) c hmem).symm
        have h1x : xs.count c = 1 := by
          rw [List.count_cons] at h1
          have hb : (x == c) = false := beq_eq_false_iff_ne.mpr hx
          simp [hb] at h1
          exact h1
        have hg2 : ∀ y ∈ xs, ∀ z ∈ g y, z = y :=
          fun y hy => hg y (List.mem_cons_of_mem _ hy)
        rw [hx0, ih hg2 h1x]
        simp

/-- With a set-only filter, the pre-pagination result is exactly the set
index bucket (no residual predicate rejects anything). -/
theorem preResults_setOnly (cards : List Card) (kw : List (String × List Card))
    (f : CardFilter)
    (hname : f.Name = "") (htype : f.«Type» = "") (hclass : f.Class = "")
    (hpitch : f.Pitch = "") (hkw : f.Keyword = "") (htext : f.TextQuery = "")
    (hleg : f.LegalIn = "") (hset : f.SetID ≠ "") :
    (loadCards cards).preResults kw f
      = (aLookup (loadCards cards).CardsBySetID (upperStr f.SetID)).getD [] := by
  unfold Store.preResults
  have hcand : (loadCards cards).selectCandidates kw f
      = (aLookup (loadCards cards).CardsBySetID (upperStr f.SetID)).getD [] := by
    unfold Store.selectCandidates
    simp [hclass, htype, hkw, hset]
  rw [hcand]
  cases hlk : aLookup (loadCards cards).CardsBySetID (upperStr f.SetID) with
  | none => simp
  | some b =>
      simp only [Option.getD_some]
      apply List.filter_eq_self.mpr
      intro c _hc
      unfold Store.matchesFilter
      simp [hname, htype, hclass, hpitch, hkw, htext, hleg, hlk]

/-- "C9": SearchCards does not deduplicate set-index candidates: on a set-only
query (offset 0, limit 0) a card occurring once in the collection appears on
the page once per printing whose set code is the uppercased filter value, and
the reported total is the full pre-pagination length. -/
theorem c9_printing_multiplicity (cards : List Card) (kw : List (String × List Card))
    (f : CardFilter) (c : Card)
    (hone : cards.count c = 1)
    (hname : f.Name = "") (htype : f.«Type» = "") (hclass : f.Class = "")
    (hpitch : f.Pitch = "") (hkw : f.Keyword = "") (htext : f.TextQuery = "")
    (hleg : f.LegalIn = "") (hset : f.SetID ≠ "")
    (hoff : f.Offset = 0) (hlim : f.Limit = 0) :
    ((loadCards cards).SearchCards kw f).1.count c
      = (c.Printings.filter (fun p => p.SetID == upperStr f.SetID)).length ∧
    ((loadCards cards).SearchCards kw f).2
      = ((loadCards cards).preResults kw f).length := by
  have hpage : ((loadCards cards).SearchCards kw f).1 = (loadCards cards).preResults kw f := by
    rw [SearchCards_eq_specPaginate]
    exact specPaginate_zero f _ hoff hlim
  have htotal : ((loadCards cards).SearchCards kw f).2
      = ((loadCards cards).preResults kw f).length := by
    rw [SearchCards_eq_specPaginate]
  refine ⟨?_, htotal⟩
  rw [hpage, preResults_setOnly cards kw f hname htype hclass hpitch hkw htext hleg hset]
  rw [lookup_CardsBySetID, getD_combineOpt]
  simp only [Option.getD_none, List.nil_append]
  rw [count_flatMap_single _ _ ?hg c hone]
  case hg =>
    intro x _hx y hy
    rw [List.mem_map] at hy
    obtain ⟨t, _ht, hty⟩ := hy
    exact hty.symm
  rw [List.filter_map]
  rw [List.length_map, List.length_map]
  congr 1

/-- Closed witness for c9_printing_multiplicity: the twin-printing card in set
WTR appears twice on the page. -/
theorem c9_witness :
    ((loadCards exTwin).SearchCards (loadCards exTwin).CardsByKeyword fSetWTR).1.count cardTwin
      = (cardTwin.Printings.filter (fun p => p.SetID == upperStr fSetWTR.SetID)).length ∧
    ((loadCards exTwin).SearchCards (loadCards exTwin).CardsByKeyword fSetWTR).2
      = ((loadCards exTwin).preResults (loadCards exTwin).CardsByKeyword fSetWTR).length :=
  c9_printing_multiplicity _ _ _ _ (by decide) rfl rfl rfl rfl rfl rfl rfl (by decide) rfl rfl

/-- On the strings GetClass can produce, EqualFold agrees with plain equality:
the class enumeration is case-distinct. -/
theorem equalFold_classList_eq :
    ∀ x ∈ ("" :: classList), ∀ y, y ∈ classList → equalFold x y = (x == y) := by decide

/-- GetClass returns a member of the class enumeration or the empty string. -/
theorem getClass_mem_cons (c : Card) : c.GetClass ∈ ("" :: classList) := by
  unfold Card.GetClass
  cases hf : c.Types.find? (fun t => classList.contains t) with
  | none => simp
  | some t =>
      have h1 := List.find?_some hf
      have h2 : t ∈ classList := by simpa using h1
      exact List.mem_cons_of_mem _ h2

/-- Filtering a duplicate-free list for one key keeps at most that key. -/
theorem nodup_filter_beq (l : List String) (hl : l.Nodup) (t : String) :
    l.filter (fun x => x == t) = if t ∈ l then [t] else [] := by
  induction l with
  | nil => simp
  | cons a as ih =>
      rw [List.filter_cons]
      rcases List.nodup_cons.mp hl with ⟨ha, has⟩
      by_cases hat : a = t
      · subst hat
        rw [ih has]
        simp [ha]
      · have hb : (a == t) = false := beq_eq_false_iff_ne.mpr hat
        rw [hb]
        simp only [Bool.false_eq_true, if_false]
        rw [ih has]
        have hne : ¬ t = a := fun h => hat h.symm
        have hmem : (t ∈ a :: as) ↔ (t ∈ as) := by
          constructor
          · intro h
            rcases List.mem_cons.mp h with h | h
            · exact absurd h hne
            · exact h
          · exact List.mem_cons_of_mem a
        simp [hmem]

/-- flatMap congruence for functions agreeing on the list's members. -/
theorem flatMap_congr_mem (l : List Card) (g1 g2 : Card → List Card)
    (h : ∀ c ∈ l, g1 c = g2 c) : l.flatMap g1 = l.flatMap g2 := by
  induction l with
  | nil => rfl
  | cons c cs ih =>
      rw [List.flatMap_cons, List.flatMap_cons, h c (by simp),
        ih (fun d hd => h d (List.mem_cons_of_mem _ hd))]

/-- The class bucket, read with a default: the cards of that derived class. -/
theorem lookupD_CardsByClass (cards : List Card) (q : String) (hq : q ≠ "") :
    (aLookup (loadCards cards).CardsByClass q).getD []
      = cards.filter (fun c => c.GetClass == q) := by
  rw [lookup_CardsByClass cards q hq, getD_combineOpt]
  simp

/-- The type bucket, read with a default: for duplicate-free type tag lists it
is the cards having that type, in collection order. -/
theorem lookupD_CardsByType_nodup (cards : List Card) (t : String)
    (hnd : ∀ c ∈ cards, c.Types.Nodup) :
    (aLookup (loadCards cards).CardsByType t).getD []
      = cards.filter (fun c => c.HasType t) := by
  rw [lookup_CardsByType, getD_combineOpt]
  simp only [Option.getD_none, List.nil_append]
  rw [flatMap_congr_mem cards _ (fun c => if c.HasType t then [c] else []) ?hterm]
  · exact flatMap_ite_singleton cards (fun c => c.HasType t)
  case hterm =>
    intro c hc
    rw [nodup_filter_beq _ (hnd c hc) t]
    by_cases h : t ∈ c.Types
    · have h2 : c.HasType t = true := by simp [Card.HasType, h]
      simp [h, h2]
    · have h2 : ¬ c.HasType t = true := by simp [Card.HasType, h]
      simp [h, h2]

/-- "C1" (amended): index/full-scan equivalence holds when the keyword and set
filter fields are empty, type tag lists are duplicate-free, and the class
field is either empty or exactly a key of the class index; the counterexample
shows it fails as soon as a second index-eligible field names an existing
bucket, because the residual type/class/set checks are skipped whenever the
corresponding bucket exists, even when the index decided a different field. -/
theorem c1_amended (cards : List Card) (kw : List (String × List Card)) (f : CardFilter)
    (hkw : f.Keyword = "") (hset : f.SetID = "")
    (hnd : ∀ c ∈ cards, c.Types.Nodup)
    (hcls : f.Class = "" ∨
      (f.«Type» = "" ∧ (aLookup (loadCards cards).CardsByClass f.Class).isSome)) :
    (loadCards cards).preResults kw f = bruteForce cards f := by
  by_cases hc : f.Class = ""
  · by_cases ht : f.«Type» = ""
    · unfold Store.preResults Store.selectCandidates bruteForce
      rw [if_neg (by simp [hc]), if_neg (by simp [ht]), if_neg (by simp [hkw]),
        if_neg (by simp [hset])]
      apply List.filter_congr
      intro c _
      unfold Store.matchesFilter specMatches
      rw [hc, ht, hkw, hset]
      simp
    · have hbt : (aLookup (loadCards cards).CardsByType f.«Type»).getD []
          = cards.filter (fun c => c.HasType f.«Type») :=
        lookupD_CardsByType_nodup cards _ hnd
      unfold Store.preResults Store.selectCandidates bruteForce
      rw [if_neg (by simp [hc]), if_pos ht]
      rw [hbt, List.filter_filter]
      apply List.filter_congr
      intro c _
      unfold Store.matchesFilter specMatches
      rw [hc, hkw, hset]
      have htb : (f.«Type» == "") = false := beq_eq_false_iff_ne.mpr ht
      cases hlk : aLookup (loadCards cards).CardsByType f.«Type» with
      | none =>
          simp only [hlk, Option.isNone_none, Bool.not_true, Bool.false_or, htb]
          simp [Bool.and_assoc, Bool.and_comm, Bool.and_left_comm, Bool.and_self]
      | some b =>
          simp only [hlk, Option.isNone_some, Bool.not_false, Bool.or_true, Bool.true_or, htb]
          simp [Bool.and_assoc, Bool.and_comm, Bool.and_left_comm]
  · rcases hcls with hcl | ⟨ht, hsome⟩
    · exact absurd hcl hc
    · obtain ⟨b, hb⟩ := Option.isSome_iff_exists.mp hsome
      have hk : f.Class ∈ classList := by
        have hb2 := hb
        rw [lookup_CardsByClass cards _ hc, combineOpt_none_eq] at hb2
        split at hb2
        · exact absurd hb2 (by simp)
        · next hne =>
            obtain ⟨d, hd⟩ := List.exists_mem_of_ne_nil _ hne
            have hdc : d.GetClass = f.Class := eq_of_beq ((List.mem_filter.mp hd).2)
            have h2 := getClass_mem_cons d
            rw [hdc] at h2
            rcases List.mem_cons.mp h2 with h3 | h3
            · exact absurd h3 hc
            · exact h3
      have hbc : (aLookup (loadCards cards).CardsByClass f.Class).getD []
          = cards.filter (fun c => c.GetClass == f.Class) :=
        lookupD_CardsByClass cards _ hc
      unfold Store.preResults Store.selectCandidates bruteForce
      rw [if_pos hc]
      rw [hbc, List.filter_filter]
      apply List.filter_congr
      intro c _
      unfold Store.matchesFilter specMatches
      rw [ht, hkw, hset]
      have hef : equalFold c.GetClass f.Class = (c.GetClass == f.Class) :=
        equalFold_classList_eq c.GetClass (getClass_mem_cons c) f.Class hk
      rw [hef, hb]
      have hcb : (f.Class == "") = false := beq_eq_false_iff_ne.mpr hc
      simp [hcb, Bool.and_assoc, Bool.and_comm, Bool.and_left_comm]

/-- Closed witness for c1_amended: a class-only query on the one-Ninja store
agrees with the brute-force scan. -/
theorem c1_witness :
    (loadCards exNinja).preResults (loadCards exNinja).CardsByKeyword
        { emptyFilter with Class := "Ninja" }
      = bruteForce exNinja { emptyFilter with Class := "Ninja" } :=
  c1_amended exNinja (loadCards exNinja).CardsByKeyword _ rfl rfl (by decide)
    (Or.inr ⟨rfl, by decide⟩)

end Goagain
